import Mathlib

/-!
Verification of the `Labelset` annotation/review workflow (labelset.py).

The Python classes are embedded as Lean structures; the in-place mutation of
the Python code is modelled by explicit state passing: every operation takes
a `Labelset` and returns the `Labelset` after the call together with
`Option Err`.  Crucially, the returned `Labelset` is the state after the call
even when the call fails, because in Python an exception raised partway
through a method leaves all mutations performed before the raise in place.

Python dictionaries are modelled as association lists with insertion-order
preserving update (`assocSet`): assigning to an existing key keeps its
position, assigning to a fresh key appends at the end — exactly Python's
`dict` behaviour for the observations made here (lookup and iteration order,
although no claim depends on iteration order).

Error values:
 * `Err.notFound`        — `ValueError("... does not exist")`
 * `Err.alreadyExists`   — `ValueError("... already exists")`
 * `Err.alreadySubmitted`— `ValueError("... already submitted")`
 * `Err.notSubmitted`    — `ValueError("... not submitted")`
 * `Err.keyError`        — Python `KeyError` from a direct
   `state_by_branch[user]` access on a missing key (lines 87, 98, 112, 130).
-/

namespace Labelset

/-- Python `KeyError` vs the several `ValueError`s raised by the code. -/
inductive Err where
  | notFound
  | alreadyExists
  | alreadySubmitted
  | notSubmitted
  | keyError
deriving DecidableEq, Repr

/-- `Event.__init__` (labelset.py lines 19-24): tuple of user, td_id, action. -/
structure Event where
  user : String
  td_id : String
  action : String
deriving DecidableEq, Repr

/-- `State.__init__` (labelset.py lines 33-41). -/
structure State where
  latest_td_id : String
  is_submitted : Bool
  approved_reviews : Nat
  rejected_reviews : Nat
  needs_updates : Bool
  is_active : Bool
deriving DecidableEq, Repr

/-- `State(td_id)`: fresh state as built by `State.__init__`. -/
def State.init (td : String) : State :=
  { latest_td_id := td
    is_submitted := false
    approved_reviews := 0
    rejected_reviews := 0
    needs_updates := false
    is_active := true }

/-- `Case.__init__` (labelset.py lines 5-10): id, event list, branch dict. -/
structure Case where
  dp_id : String
  events : List Event
  state_by_branch : List (String × State)
deriving DecidableEq, Repr

/-- `Case(case_id)`: fresh case with empty log and no branches. -/
def Case.init (dp_id : String) : Case :=
  { dp_id := dp_id, events := [], state_by_branch := [] }

/-- `Labelset.__init__` (line 52-53): dictionary of cases. -/
structure LS where
  cases : List (String × Case)
deriving DecidableEq, Repr

/-- Python `dict.get(k, None)` / `d[k]` lookup on the association list. -/
def assocGet {α : Type} : List (String × α) → String → Option α
  | [], _ => none
  | (k, v) :: rest, key => if k = key then some v else assocGet rest key

/-- Python `d[k] = v`: replace in place if present, append if fresh. -/
def assocSet {α : Type} : List (String × α) → String → α → List (String × α)
  | [], key, v => [(key, v)]
  | (k, w) :: rest, key, v =>
      if k = key then (key, v) :: rest else (k, w) :: assocSet rest key v

/-- The State stored for branch `user` of case `dp_id`, if both exist. -/
def branchState (ls : LS) (dp_id user : String) : Option State :=
  (assocGet ls.cases dp_id).bind fun c => assocGet c.state_by_branch user

/-- The event log of case `dp_id`, if the case exists. -/
def caseEvents (ls : LS) (dp_id : String) : Option (List Event) :=
  (assocGet ls.cases dp_id).map Case.events

/-- `Labelset.create_case` (lines 55-59). -/
def create_case (ls : LS) (dp_id : String) : LS × Option Err :=
  match assocGet ls.cases dp_id with
  | some _ => (ls, some Err.alreadyExists)
  | none => (⟨assocSet ls.cases dp_id (Case.init dp_id)⟩, none)

/-- `Labelset.annotate_case` (lines 65-79).  Both the fresh-branch and the
unsubmitted-branch path assign `State(td)`, then append one event. -/
def annotate_case (ls : LS) (dp_id user td : String) : LS × Option Err :=
  match assocGet ls.cases dp_id with
  | none => (ls, some Err.notFound)
  | some c =>
    match assocGet c.state_by_branch user with
    | some st =>
      if st.is_submitted then (ls, some Err.alreadySubmitted)
      else
        (⟨assocSet ls.cases dp_id
            { c with state_by_branch := assocSet c.state_by_branch user (State.init td)
                     events := c.events ++ [⟨user, td, "annotate"⟩] }⟩, none)
    | none =>
        (⟨assocSet ls.cases dp_id
            { c with state_by_branch := assocSet c.state_by_branch user (State.init td)
                     events := c.events ++ [⟨user, td, "annotate"⟩] }⟩, none)

/-- `Labelset.sign_off_on_case` (lines 81-89).  The direct
`state_by_branch[user]` access raises `KeyError` on a missing branch, before
any mutation. -/
def sign_off_on_case (ls : LS) (dp_id user td : String) : LS × Option Err :=
  match assocGet ls.cases dp_id with
  | none => (ls, some Err.notFound)
  | some c =>
    match assocGet c.state_by_branch user with
    | none => (ls, some Err.keyError)
    | some st =>
        (⟨assocSet ls.cases dp_id
            { c with state_by_branch :=
                       assocSet c.state_by_branch user { st with is_submitted := true }
                     events := c.events ++ [⟨user, td, "sign_off"⟩] }⟩, none)

/-- `Labelset.review_passed` (lines 92-103). -/
def review_passed (ls : LS) (dp_id user td : String) : LS × Option Err :=
  match assocGet ls.cases dp_id with
  | none => (ls, some Err.notFound)
  | some c =>
    match assocGet c.state_by_branch user with
    | none => (ls, some Err.keyError)
    | some st =>
      if st.is_submitted then
        (⟨assocSet ls.cases dp_id
            { c with state_by_branch :=
                       assocSet c.state_by_branch user
                         { st with approved_reviews := st.approved_reviews + 1 }
                     events := c.events ++ [⟨user, td, "review_passed"⟩] }⟩, none)
      else (ls, some Err.notSubmitted)

/-- `Labelset.review_failed` (lines 105-118). -/
def review_failed (ls : LS) (dp_id user td : String) : LS × Option Err :=
  match assocGet ls.cases dp_id with
  | none => (ls, some Err.notFound)
  | some c =>
    match assocGet c.state_by_branch user with
    | none => (ls, some Err.keyError)
    | some st =>
      if st.is_submitted then
        (⟨assocSet ls.cases dp_id
            { c with state_by_branch :=
                       assocSet c.state_by_branch user
                         { st with rejected_reviews := st.rejected_reviews + 1
                                   needs_updates := true }
                     events := c.events ++ [⟨user, td, "review_failed"⟩] }⟩, none)
      else (ls, some Err.notSubmitted)

/-- The `for user in users` loop of `merge_branches` (lines 129-132), acting
on the branch dictionary.  Each iteration reads `state_by_branch[user]`
(Python raises `KeyError` there on a missing key, keeping the mutations of
earlier iterations), deactivates that branch in place, and, when that
branch's `is_submitted` is false, flips the merged branch's `is_submitted`
to false in place. -/
def mergeLoop (mb : String) :
    List String → List (String × State) → List (String × State) × Option Err
  | [], d => (d, none)
  | u :: rest, d =>
    match assocGet d u with
    | none => (d, some Err.keyError)
    | some st =>
      let d1 := assocSet d u { st with is_active := false }
      if st.is_submitted then mergeLoop mb rest d1
      else
        match assocGet d1 mb with
        | none => (d1, some Err.keyError)
        | some m => mergeLoop mb rest (assocSet d1 mb { m with is_submitted := false })

/-- `Labelset.merge_branches` (lines 120-134).  The merged branch is created
(submitted) before the sources are checked; the event is only appended when
the loop completes, and its action string is `"merge_branches"`. -/
def merge_branches (ls : LS) (dp_id : String) (users : List String)
    (merged_branch td : String) : LS × Option Err :=
  match assocGet ls.cases dp_id with
  | none => (ls, some Err.notFound)
  | some c =>
    let d0 := assocSet c.state_by_branch merged_branch
                { State.init td with is_submitted := true }
    match mergeLoop merged_branch users d0 with
    | (d, some e) =>
        (⟨assocSet ls.cases dp_id { c with state_by_branch := d }⟩, some e)
    | (d, none) =>
        (⟨assocSet ls.cases dp_id
            { c with state_by_branch := d
                     events := c.events ++ [⟨merged_branch, td, "merge_branches"⟩] }⟩,
         none)

/-- Sequence of `annotate_case` calls on one branch, stopping at the first
failure (as a Python caller would, since the exception propagates). -/
def annotateAll (ls : LS) (dp_id user : String) : List String → LS × Option Err
  | [] => (ls, none)
  | td :: rest =>
    match annotate_case ls dp_id user td with
    | (ls', none) => annotateAll ls' dp_id user rest
    | (ls', some e) => (ls', some e)

/-- Interleaving of reviews on one branch: `true` is a `review_passed` call,
`false` a `review_failed` call; stops at the first failure. -/
def reviewAll (ls : LS) (dp_id user td : String) : List Bool → LS × Option Err
  | [] => (ls, none)
  | b :: rest =>
    match (if b then review_passed ls dp_id user td else review_failed ls dp_id user td) with
    | (ls', none) => reviewAll ls' dp_id user td rest
    | (ls', some e) => (ls', some e)

/-- The `is_submitted` flag of branch `u` in dictionary `d` (false if absent). -/
def submittedAt (d : List (String × State)) (u : String) : Bool :=
  match assocGet d u with
  | some st => st.is_submitted
  | none => false

/-! ### Association-list lemmas -/

theorem assocGet_assocSet_self {α : Type} (m : List (String × α)) (k : String) (v : α) :
    assocGet (assocSet m k v) k = some v := by
  induction m with
  | nil => simp [assocGet, assocSet]
  | cons hd tl ih =>
    obtain ⟨k', w⟩ := hd
    by_cases h : k' = k <;> simp [assocGet, assocSet, h, ih]

theorem assocGet_assocSet_ne {α : Type} (m : List (String × α)) (k k' : String) (v : α)
    (h : k' ≠ k) : assocGet (assocSet m k v) k' = assocGet m k' := by
  induction m with
  | nil => simp [assocGet, assocSet, Ne.symm h]
  | cons hd tl ih =>
    obtain ⟨k'', w⟩ := hd
    by_cases h2 : k'' = k
    · subst h2
      simp [assocGet, assocSet, Ne.symm h]
    · simp only [assocSet, if_neg h2, assocGet]
      by_cases h3 : k'' = k' <;> simp [h3, ih]

theorem assocSet_fresh {α : Type} (m : List (String × α)) (k : String) (v : α)
    (h : assocGet m k = none) : assocSet m k v = m ++ [(k, v)] := by
  induction m with
  | nil => simp [assocSet]
  | cons hd tl ih =>
    obtain ⟨k', w⟩ := hd
    by_cases h2 : k' = k
    · simp [assocGet, h2] at h
    · simp [assocGet, h2] at h
      simp [assocSet, h2, ih h]

theorem assocSet_assocSet_self {α : Type} (m : List (String × α)) (k : String) (v w : α) :
    assocSet (assocSet m k v) k w = assocSet m k w := by
  induction m with
  | nil => simp [assocSet]
  | cons hd tl ih =>
    obtain ⟨k', x⟩ := hd
    by_cases h : k' = k <;> simp [assocSet, h, ih]

theorem list_all_congr {α : Type} (l : List α) (f g : α → Bool)
    (h : ∀ x ∈ l, f x = g x) : l.all f = l.all g := by
  induction l with
  | nil => rfl
  | cons hd tl ih =>
    simp only [List.all_cons, h hd (by simp), ih fun x hx => h x (by simp [hx])]

/-! ### Success-shape lemmas for each operation -/

theorem annotate_success_shape (ls : LS) (dp_id user td : String)
    (h : (annotate_case ls dp_id user td).2 = none) :
    ∃ c, assocGet ls.cases dp_id = some c ∧
      (annotate_case ls dp_id user td).1 =
        ⟨assocSet ls.cases dp_id
          { c with state_by_branch := assocSet c.state_by_branch user (State.init td)
                   events := c.events ++ [⟨user, td, "annotate"⟩] }⟩ := by
  unfold annotate_case at h ⊢
  match hc : assocGet ls.cases dp_id with
  | none => simp [hc] at h
  | some c =>
    refine ⟨c, by simp [hc], ?_⟩
    match hb : assocGet c.state_by_branch user with
    | none => simp [hc, hb]
    | some st =>
      by_cases hs : st.is_submitted
      · simp [hc, hb, hs] at h
      · simp [hc, hb, hs]

theorem sign_off_success_shape (ls : LS) (dp_id user td : String)
    (h : (sign_off_on_case ls dp_id user td).2 = none) :
    ∃ c st, assocGet ls.cases dp_id = some c ∧
      assocGet c.state_by_branch user = some st ∧
      (sign_off_on_case ls dp_id user td).1 =
        ⟨assocSet ls.cases dp_id
          { c with state_by_branch :=
                     assocSet c.state_by_branch user { st with is_submitted := true }
                   events := c.events ++ [⟨user, td, "sign_off"⟩] }⟩ := by
  unfold sign_off_on_case at h ⊢
  match hc : assocGet ls.cases dp_id with
  | none => simp [hc] at h
  | some c =>
    match hb : assocGet c.state_by_branch user with
    | none => simp [hc, hb] at h
    | some st => exact ⟨c, st, by simp [hc], by simp [hb], by simp [hc, hb]⟩

theorem review_passed_success_shape (ls : LS) (dp_id user td : String)
    (h : (review_passed ls dp_id user td).2 = none) :
    ∃ c st, assocGet ls.cases dp_id = some c ∧
      assocGet c.state_by_branch user = some st ∧ st.is_submitted = true ∧
      (review_passed ls dp_id user td).1 =
        ⟨assocSet ls.cases dp_id
          { c with state_by_branch :=
                     assocSet c.state_by_branch user
                       { st with approved_reviews := st.approved_reviews + 1 }
                   events := c.events ++ [⟨user, td, "review_passed"⟩] }⟩ := by
  unfold review_passed at h ⊢
  match hc : assocGet ls.cases dp_id with
  | none => simp [hc] at h
  | some c =>
    match hb : assocGet c.state_by_branch user with
    | none => simp [hc, hb] at h
    | some st =>
      by_cases hs : st.is_submitted
      · exact ⟨c, st, by simp [hc], by simp [hb], hs, by simp [hc, hb, hs]⟩
      · simp [hc, hb, hs] at h

theorem review_failed_success_shape (ls : LS) (dp_id user td : String)
    (h : (review_failed ls dp_id user td).2 = none) :
    ∃ c st, assocGet ls.cases dp_id = some c ∧
      assocGet c.state_by_branch user = some st ∧ st.is_submitted = true ∧
      (review_failed ls dp_id user td).1 =
        ⟨assocSet ls.cases dp_id
          { c with state_by_branch :=
                     assocSet c.state_by_branch user
                       { st with rejected_reviews := st.rejected_reviews + 1
                                 needs_updates := true }
                   events := c.events ++ [⟨user, td, "review_failed"⟩] }⟩ := by
  unfold review_failed at h ⊢
  match hc : assocGet ls.cases dp_id with
  | none => simp [hc] at h
  | some c =>
    match hb : assocGet c.state_by_branch user with
    | none => simp [hc, hb] at h
    | some st =>
      by_cases hs : st.is_submitted
      · exact ⟨c, st, by simp [hc], by simp [hb], hs, by simp [hc, hb, hs]⟩
      · simp [hc, hb, hs] at h

theorem merge_success_shape (ls : LS) (dp_id : String) (users : List String)
    (mb td : String) (h : (merge_branches ls dp_id users mb td).2 = none) :
    ∃ c d, assocGet ls.cases dp_id = some c ∧
      mergeLoop mb users
          (assocSet c.state_by_branch mb { State.init td with is_submitted := true }) =
        (d, none) ∧
      (merge_branches ls dp_id users mb td).1 =
        ⟨assocSet ls.cases dp_id
          { c with state_by_branch := d
                   events := c.events ++ [⟨mb, td, "merge_branches"⟩] }⟩ := by
  unfold merge_branches at h ⊢
  match hc : assocGet ls.cases dp_id with
  | none => simp [hc] at h
  | some c =>
    match hd : mergeLoop mb users
        (assocSet c.state_by_branch mb { State.init td with is_submitted := true }) with
    | (d, some e) => simp [hc, hd] at h
    | (d, none) => exact ⟨c, d, by simp [hc], by simp [hd], by simp [hc, hd]⟩

/-- Full characterisation of the merge loop when the merged branch is not
among the sources and every source is present: it succeeds, the merged
branch's `is_submitted` ends up ANDed with all sources' `is_submitted` flags
(as read at loop entry), every source is exactly deactivated, and every
other branch is untouched. -/
theorem mergeLoop_spec (mb : String) :
    ∀ (users : List String) (d : List (String × State)) (M : State),
      mb ∉ users →
      assocGet d mb = some M →
      (∀ u ∈ users, (assocGet d u).isSome) →
      (mergeLoop mb users d).2 = none ∧
      assocGet (mergeLoop mb users d).1 mb =
        some { M with is_submitted := M.is_submitted && users.all (submittedAt d) } ∧
      (∀ u ∈ users, assocGet (mergeLoop mb users d).1 u =
        (assocGet d u).map fun st => { st with is_active := false }) ∧
      (∀ b, b ∉ users → b ≠ mb → assocGet (mergeLoop mb users d).1 b = assocGet d b) := by
  intro users
  induction users with
  | nil =>
    intro d M _ hM _
    refine ⟨rfl, ?_, by simp, fun b _ _ => rfl⟩
    simpa [mergeLoop] using hM
  | cons u rest ih =>
    intro d M hmb hM hall
    have hmu : mb ≠ u := fun h => hmb (h ▸ List.mem_cons_self u rest)
    have hmbrest : mb ∉ rest := fun h => hmb (List.mem_cons_of_mem _ h)
    obtain ⟨st, hst⟩ : ∃ st, assocGet d u = some st := by
      have h1 := hall u (List.mem_cons_self u rest)
      match h : assocGet d u with
      | none => rw [h] at h1; simp at h1
      | some st => exact ⟨st, rfl⟩
    obtain ⟨t0, b0, a0, r0, n0, c0⟩ := st
    have hd1get : ∀ (x : State) (v : String), v ≠ u →
        assocGet (assocSet d u x) v = assocGet d v :=
      fun x v hv => assocGet_assocSet_ne _ _ _ _ hv
    cases b0 with
    | true =>
      have hd1M : assocGet (assocSet d u ⟨t0, true, a0, r0, n0, false⟩) mb = some M := by
        rw [hd1get _ _ hmu]; exact hM
      have hd1u : assocGet (assocSet d u ⟨t0, true, a0, r0, n0, false⟩) u =
          some ⟨t0, true, a0, r0, n0, false⟩ := assocGet_assocSet_self ..
      have hsub1 : ∀ v ∈ rest,
          submittedAt (assocSet d u ⟨t0, true, a0, r0, n0, false⟩) v = submittedAt d v := by
        intro v _
        by_cases hvu : v = u
        · subst hvu; simp [submittedAt, hd1u, hst]
        · simp [submittedAt, hd1get _ v hvu]
      have hrun : mergeLoop mb (u :: rest) d =
          mergeLoop mb rest (assocSet d u ⟨t0, true, a0, r0, n0, false⟩) := by
        simp [mergeLoop, hst]
      have hall1 : ∀ v ∈ rest,
          (assocGet (assocSet d u ⟨t0, true, a0, r0, n0, false⟩) v).isSome := by
        intro v hv
        by_cases hvu : v = u
        · subst hvu; simp [hd1u]
        · rw [hd1get _ v hvu]; exact hall v (List.mem_cons_of_mem _ hv)
      obtain ⟨ih1, ih2, ih3, ih4⟩ :=
        ih (assocSet d u ⟨t0, true, a0, r0, n0, false⟩) M hmbrest hd1M hall1
      rw [hrun]
      refine ⟨ih1, ?_, ?_, ?_⟩
      · rw [ih2, list_all_congr rest _ _ hsub1]
        simp [List.all_cons, submittedAt, hst]
      · intro v hv
        rcases List.mem_cons.mp hv with hvu | hvr
        · subst hvu
          by_cases hur : v ∈ rest
          · rw [ih3 v hur, hd1u, hst]; rfl
          · rw [ih4 v hur (fun h => hmu h.symm), hd1u, hst]; rfl
        · rw [ih3 v hvr]
          by_cases hvu : v = u
          · subst hvu; rw [hd1u, hst]; rfl
          · rw [hd1get _ v hvu]
      · intro b hb hbm
        have hbu : b ≠ u := fun h => hb (h ▸ List.mem_cons_self u rest)
        have hbr : b ∉ rest := fun h => hb (List.mem_cons_of_mem _ h)
        rw [ih4 b hbr hbm, hd1get _ b hbu]
    | false =>
      have hd1M : assocGet (assocSet d u ⟨t0, false, a0, r0, n0, false⟩) mb = some M := by
        rw [hd1get _ _ hmu]; exact hM
      have hd1u : assocGet (assocSet d u ⟨t0, false, a0, r0, n0, false⟩) u =
          some ⟨t0, false, a0, r0, n0, false⟩ := assocGet_assocSet_self ..
      have hrun : mergeLoop mb (u :: rest) d =
          mergeLoop mb rest
            (assocSet (assocSet d u ⟨t0, false, a0, r0, n0, false⟩) mb
              { M with is_submitted := false }) := by
        simp [mergeLoop, hst, hd1M]
      have hd2M : assocGet (assocSet (assocSet d u ⟨t0, false, a0, r0, n0, false⟩) mb
          { M with is_submitted := false }) mb = some { M with is_submitted := false } :=
        assocGet_assocSet_self ..
      have hd2get : ∀ v, v ≠ mb →
          assocGet (assocSet (assocSet d u ⟨t0, false, a0, r0, n0, false⟩) mb
            { M with is_submitted := false }) v =
          assocGet (assocSet d u ⟨t0, false, a0, r0, n0, false⟩) v :=
        fun v hv => assocGet_assocSet_ne _ _ _ _ hv
      have hall2 : ∀ v ∈ rest,
          (assocGet (assocSet (assocSet d u ⟨t0, false, a0, r0, n0, false⟩) mb
            { M with is_submitted := false }) v).isSome := by
        intro v hv
        rw [hd2get v (fun h => hmbrest (h ▸ hv))]
        by_cases hvu : v = u
        · subst hvu; simp [hd1u]
        · rw [hd1get _ v hvu]; exact hall v (List.mem_cons_of_mem _ hv)
      obtain ⟨ih1, ih2, ih3, ih4⟩ := ih
        (assocSet (assocSet d u ⟨t0, false, a0, r0, n0, false⟩) mb
          { M with is_submitted := false })
        { M with is_submitted := false } hmbrest hd2M hall2
      rw [hrun]
      refine ⟨ih1, ?_, ?_, ?_⟩
      · rw [ih2]
        simp [List.all_cons, submittedAt, hst]
      · intro v hv
        have hvm : v ≠ mb := fun h => hmb (h ▸ hv)
        rcases List.mem_cons.mp hv with hvu | hvr
        · subst hvu
          by_cases hur : v ∈ rest
          · rw [ih3 v hur, hd2get v hvm, hd1u, hst]; rfl
          · rw [ih4 v hur hvm, hd2get v hvm, hd1u, hst]; rfl
        · rw [ih3 v hvr, hd2get v hvm]
          by_cases hvu : v = u
          · subst hvu; rw [hd1u, hst]; rfl
          · rw [hd1get _ v hvu]
      · intro b hb hbm
        have hbu : b ≠ u := fun h => hb (h ▸ List.mem_cons_self u rest)
        have hbr : b ∉ rest := fun h => hb (List.mem_cons_of_mem _ h)
        rw [ih4 b hbr hbm, hd2get b hbm, hd1get _ b hbu]

/-- Any interleaving of reviews on a submitted branch succeeds and updates
the two counters and `needs_updates` exactly as the interleaving dictates,
leaving every other field of the branch untouched. -/
theorem reviewAll_spec (dp_id user td : String) :
    ∀ (s : List Bool) (ls : LS) (c : Case) (t0 : String) (a0 r0 : Nat) (n0 c0 : Bool),
      assocGet ls.cases dp_id = some c →
      assocGet c.state_by_branch user = some ⟨t0, true, a0, r0, n0, c0⟩ →
      (reviewAll ls dp_id user td s).2 = none ∧
      branchState (reviewAll ls dp_id user td s).1 dp_id user =
        some ⟨t0, true, a0 + s.count true, r0 + s.count false,
              n0 || !(s.count false == 0), c0⟩ := by
  intro s
  induction s with
  | nil =>
    intro ls c t0 a0 r0 n0 c0 hc hb
    refine ⟨rfl, ?_⟩
    simp [reviewAll, branchState, hc, hb]
  | cons b s' ih =>
    intro ls c t0 a0 r0 n0 c0 hc hb
    cases b with
    | true =>
      have heq : review_passed ls dp_id user td =
          (⟨assocSet ls.cases dp_id
            { c with state_by_branch :=
                       assocSet c.state_by_branch user ⟨t0, true, a0 + 1, r0, n0, c0⟩
                     events := c.events ++ [⟨user, td, "review_passed"⟩] }⟩, none) := by
        simp [review_passed, hc, hb]
      have hrun : reviewAll ls dp_id user td (true :: s') =
          reviewAll (⟨assocSet ls.cases dp_id
            { c with state_by_branch :=
                       assocSet c.state_by_branch user ⟨t0, true, a0 + 1, r0, n0, c0⟩
                     events := c.events ++ [⟨user, td, "review_passed"⟩] }⟩ : LS)
            dp_id user td s' := by
        simp [reviewAll, heq]
      obtain ⟨ih1, ih2⟩ := ih
        (⟨assocSet ls.cases dp_id
          { c with state_by_branch :=
                     assocSet c.state_by_branch user ⟨t0, true, a0 + 1, r0, n0, c0⟩
                   events := c.events ++ [⟨user, td, "review_passed"⟩] }⟩ : LS)
        { c with state_by_branch :=
                   assocSet c.state_by_branch user ⟨t0, true, a0 + 1, r0, n0, c0⟩
                 events := c.events ++ [⟨user, td, "review_passed"⟩] }
        t0 (a0 + 1) r0 n0 c0 (assocGet_assocSet_self ..) (assocGet_assocSet_self ..)
      rw [hrun]
      refine ⟨ih1, ?_⟩
      rw [ih2]
      simp [List.count_cons]
      omega
    | false =>
      have heq : review_failed ls dp_id user td =
          (⟨assocSet ls.cases dp_id
            { c with state_by_branch :=
                       assocSet c.state_by_branch user ⟨t0, true, a0, r0 + 1, true, c0⟩
                     events := c.events ++ [⟨user, td, "review_failed"⟩] }⟩, none) := by
        simp [review_failed, hc, hb]
      have hrun : reviewAll ls dp_id user td (false :: s') =
          reviewAll (⟨assocSet ls.cases dp_id
            { c with state_by_branch :=
                       assocSet c.state_by_branch user ⟨t0, true, a0, r0 + 1, true, c0⟩
                     events := c.events ++ [⟨user, td, "review_failed"⟩] }⟩ : LS)
            dp_id user td s' := by
        simp [reviewAll, heq]
      obtain ⟨ih1, ih2⟩ := ih
        (⟨assocSet ls.cases dp_id
          { c with state_by_branch :=
                     assocSet c.state_by_branch user ⟨t0, true, a0, r0 + 1, true, c0⟩
                   events := c.events ++ [⟨user, td, "review_failed"⟩] }⟩ : LS)
        { c with state_by_branch :=
                   assocSet c.state_by_branch user ⟨t0, true, a0, r0 + 1, true, c0⟩
                 events := c.events ++ [⟨user, td, "review_failed"⟩] }
        t0 a0 (r0 + 1) true c0 (assocGet_assocSet_self ..) (assocGet_assocSet_self ..)
      rw [hrun]
      refine ⟨ih1, ?_⟩
      rw [ih2]
      simp [List.count_cons]
      omega

/-- After a successful sequence of `annotate_case` calls on one branch, the
branch's state is the fresh `State` of the last revision. -/
theorem annotateAll_last (dp_id user : String) :
    ∀ (tds : List String) (ls : LS) (td : String),
      (annotateAll ls dp_id user (td :: tds)).2 = none →
      branchState (annotateAll ls dp_id user (td :: tds)).1 dp_id user =
        some (State.init ((td :: tds).getLast (List.cons_ne_nil td tds))) := by
  intro tds
  induction tds with
  | nil =>
    intro ls td h
    match hres : annotate_case ls dp_id user td with
    | (ls', some e) =>
      rw [show annotateAll ls dp_id user [td] =
            match annotate_case ls dp_id user td with
            | (ls', none) => annotateAll ls' dp_id user []
            | (ls', some e) => (ls', some e) from rfl, hres] at h
      simp at h
    | (ls', none) =>
      obtain ⟨c, hc, h1⟩ := annotate_success_shape ls dp_id user td (by rw [hres])
      rw [hres] at h1
      rw [show annotateAll ls dp_id user [td] =
            match annotate_case ls dp_id user td with
            | (ls', none) => annotateAll ls' dp_id user []
            | (ls', some e) => (ls', some e) from rfl, hres]
      simp only [annotateAll, List.getLast_singleton]
      have h2 : ls' = _ := h1
      rw [h2]
      simp [branchState, assocGet_assocSet_self]
  | cons td2 rest ih =>
    intro ls td h
    match hres : annotate_case ls dp_id user td with
    | (ls', some e) =>
      rw [show annotateAll ls dp_id user (td :: td2 :: rest) =
            match annotate_case ls dp_id user td with
            | (ls', none) => annotateAll ls' dp_id user (td2 :: rest)
            | (ls', some e) => (ls', some e) from rfl, hres] at h
      simp at h
    | (ls', none) =>
      have hrun : annotateAll ls dp_id user (td :: td2 :: rest) =
          annotateAll ls' dp_id user (td2 :: rest) := by
        rw [show annotateAll ls dp_id user (td :: td2 :: rest) =
              match annotate_case ls dp_id user td with
              | (ls', none) => annotateAll ls' dp_id user (td2 :: rest)
              | (ls', some e) => (ls', some e) from rfl, hres]
      rw [hrun] at h ⊢
      rw [ih ls' td2 h]
      rw [List.getLast_cons (List.cons_ne_nil td2 rest)]

/-- The `is_submitted` flag of a branch of a case (false if either is missing). -/
def branchSubmitted (ls : LS) (dp_id user : String) : Bool :=
  match branchState ls dp_id user with
  | some st => st.is_submitted
  | none => false

/-- Concrete fixture: a labelset holding one empty case `"c"`. -/
def lsCaseOnly : LS := (create_case ⟨[]⟩ "c").1

/-- Concrete fixture: case `"c"` with branch `"u"` freshly annotated at `"t0"`. -/
def lsAnnotated : LS := (annotate_case lsCaseOnly "c" "u" "t0").1

/-- Concrete fixture: case `"c"` with branch `"u"` annotated and signed off. -/
def lsSubmitted : LS := (sign_off_on_case lsAnnotated "c" "u" "t0").1

/-- Concrete fixture: `lsSubmitted` plus a second, unsubmitted branch `"v"`. -/
def lsTwoBranches : LS := (annotate_case lsSubmitted "c" "v" "t2").1

/-! ## Claims -/

/-- C8: `create_case` on a fresh id appends exactly one empty case (empty
event log, no branches) to the registry; a second `create_case` with the
same id fails with `AlreadyExists` and leaves the whole labelset — hence the
registry and every event log — unchanged. -/
theorem create_case_spec (ls : LS) (dp_id : String) :
    (assocGet ls.cases dp_id = none →
      create_case ls dp_id = (⟨ls.cases ++ [(dp_id, Case.init dp_id)]⟩, none)) ∧
    (∀ c, assocGet ls.cases dp_id = some c →
      create_case ls dp_id = (ls, some Err.alreadyExists)) := by
  constructor
  · intro h
    simp [create_case, h, assocSet_fresh _ _ _ h]
  · intro c h
    simp [create_case, h]

/-- Witness for C8 at the concrete id `"c"`. -/
theorem create_case_spec_witness :
    create_case ⟨[]⟩ "c" = (⟨[("c", Case.init "c")]⟩, none) ∧
    create_case lsCaseOnly "c" = (lsCaseOnly, some Err.alreadyExists) :=
  ⟨(create_case_spec ⟨[]⟩ "c").1 (by decide),
   (create_case_spec lsCaseOnly "c").2 (Case.init "c") (by decide)⟩

/-- C5: a successful `annotate_case` replaces the branch's whole State with
a fresh `State(td)` (latest revision `td`, unsubmitted, zero counters, no
updates needed, active); consequently after a successful sequence of
annotate calls on a branch the state is the fresh State of the last
revision. -/
theorem annotate_resets_branch_state :
    (∀ ls dp_id user td, (annotate_case ls dp_id user td).2 = none →
      branchState (annotate_case ls dp_id user td).1 dp_id user =
        some (State.init td)) ∧
    (∀ ls dp_id user td tds, (annotateAll ls dp_id user (td :: tds)).2 = none →
      branchState (annotateAll ls dp_id user (td :: tds)).1 dp_id user =
        some (State.init ((td :: tds).getLast (List.cons_ne_nil td tds)))) := by
  constructor
  · intro ls dp_id user td h
    obtain ⟨c, hc, h1⟩ := annotate_success_shape ls dp_id user td h
    rw [h1]
    simp [branchState, assocGet_assocSet_self]
  · intro ls dp_id user td tds h
    exact annotateAll_last dp_id user tds ls td h

/-- Witness for C5: one annotate on the fixture, and a three-revision
sequence whose last revision wins. -/
theorem annotate_resets_branch_state_witness :
    branchState (annotate_case lsCaseOnly "c" "u" "t0").1 "c" "u" =
      some (State.init "t0") ∧
    branchState (annotateAll lsCaseOnly "c" "u" ["a", "b", "z"]).1 "c" "u" =
      some (State.init "z") :=
  ⟨annotate_resets_branch_state.1 lsCaseOnly "c" "u" "t0" (by decide),
   annotate_resets_branch_state.2 lsCaseOnly "c" "u" "a" ["b", "z"] (by decide)⟩

/-- C6: on an existing case, `review_passed` and `review_failed` on a branch
whose State is unsubmitted fail with `NotSubmitted` and return the labelset
unchanged, so the branch's counters and `needs_updates` are untouched. -/
theorem review_on_unsubmitted_fails (ls : LS) (dp_id user td : String) (st : State)
    (h : branchState ls dp_id user = some st) (hs : st.is_submitted = false) :
    review_passed ls dp_id user td = (ls, some Err.notSubmitted) ∧
    review_failed ls dp_id user td = (ls, some Err.notSubmitted) := by
  rw [branchState] at h
  match hc : assocGet ls.cases dp_id with
  | none => rw [hc] at h; simp at h
  | some c =>
    rw [hc] at h
    simp only [Option.some_bind] at h
    constructor
    · simp [review_passed, hc, h, hs]
    · simp [review_failed, hc, h, hs]

/-- Witness for C6 on the unsubmitted fixture branch. -/
theorem review_on_unsubmitted_fails_witness :
    review_passed lsAnnotated "c" "u" "t1" = (lsAnnotated, some Err.notSubmitted) ∧
    review_failed lsAnnotated "c" "u" "t1" = (lsAnnotated, some Err.notSubmitted) :=
  review_on_unsubmitted_fails lsAnnotated "c" "u" "t1"
    ⟨"t0", false, 0, 0, false, true⟩ (by decide) (by decide)

/-- C9: `sign_off_on_case` has no guard on submission status: whenever the
branch State exists it succeeds (even if already submitted), sets only
`is_submitted := true`, and appends one `sign_off` event; a second sign-off
leaves the branch State unchanged while appending one more event. -/
theorem sign_off_unguarded_idempotent (ls : LS) (dp_id user td : String) (st : State)
    (h : branchState ls dp_id user = some st) :
    (sign_off_on_case ls dp_id user td).2 = none ∧
    branchState (sign_off_on_case ls dp_id user td).1 dp_id user =
      some { st with is_submitted := true } ∧
    caseEvents (sign_off_on_case ls dp_id user td).1 dp_id =
      (caseEvents ls dp_id).map (fun evs => evs ++ [⟨user, td, "sign_off"⟩]) ∧
    (sign_off_on_case (sign_off_on_case ls dp_id user td).1 dp_id user td).2 = none ∧
    branchState (sign_off_on_case (sign_off_on_case ls dp_id user td).1 dp_id user td).1
        dp_id user =
      branchState (sign_off_on_case ls dp_id user td).1 dp_id user ∧
    caseEvents (sign_off_on_case (sign_off_on_case ls dp_id user td).1 dp_id user td).1
        dp_id =
      (caseEvents (sign_off_on_case ls dp_id user td).1 dp_id).map
        (fun evs => evs ++ [⟨user, td, "sign_off"⟩]) := by
  rw [branchState] at h
  match hc : assocGet ls.cases dp_id with
  | none => rw [hc] at h; simp at h
  | some c =>
    rw [hc] at h
    simp only [Option.some_bind] at h
    have heq1 : sign_off_on_case ls dp_id user td =
        (⟨assocSet ls.cases dp_id
          { c with state_by_branch :=
                     assocSet c.state_by_branch user { st with is_submitted := true }
                   events := c.events ++ [⟨user, td, "sign_off"⟩] }⟩, none) := by
      simp [sign_off_on_case, hc, h]
    have heq2 : sign_off_on_case (sign_off_on_case ls dp_id user td).1 dp_id user td =
        (⟨assocSet (sign_off_on_case ls dp_id user td).1.cases dp_id
          { c with state_by_branch :=
                     assocSet (assocSet c.state_by_branch user
                         { st with is_submitted := true }) user
                       { st with is_submitted := true }
                   events := (c.events ++ [⟨user, td, "sign_off"⟩])
                               ++ [⟨user, td, "sign_off"⟩] }⟩, none) := by
      rw [heq1]
      simp [sign_off_on_case, assocGet_assocSet_self]
    refine ⟨by rw [heq1], ?_, ?_, by rw [heq2], ?_, ?_⟩
    · rw [heq1]
      simp [branchState, assocGet_assocSet_self]
    · rw [heq1]
      simp [caseEvents, hc, assocGet_assocSet_self]
    · rw [heq2, heq1]
      simp [branchState, assocGet_assocSet_self, assocSet_assocSet_self]
    · rw [heq2, heq1]
      simp [caseEvents, assocGet_assocSet_self]

/-- Witness for C9 on the already-submitted fixture branch. -/
theorem sign_off_unguarded_idempotent_witness :
    (sign_off_on_case lsSubmitted "c" "u" "t1").2 = none ∧
    branchState (sign_off_on_case lsSubmitted "c" "u" "t1").1 "c" "u" =
      some ⟨"t0", true, 0, 0, false, true⟩ ∧
    (sign_off_on_case (sign_off_on_case lsSubmitted "c" "u" "t1").1 "c" "u" "t1").2
        = none ∧
    branchState
        (sign_off_on_case (sign_off_on_case lsSubmitted "c" "u" "t1").1 "c" "u" "t1").1
        "c" "u" =
      branchState (sign_off_on_case lsSubmitted "c" "u" "t1").1 "c" "u" := by
  obtain ⟨h1, h2, _, h4, h5, _⟩ :=
    sign_off_unguarded_idempotent lsSubmitted "c" "u" "t1"
      ⟨"t0", true, 0, 0, false, true⟩ (by decide)
  exact ⟨h1, h2, h4, h5⟩

/-- C10: `merge_branches` with an empty source list succeeds on any existing
case: the merged branch is created with `is_submitted := true` (the AND over
zero sources), `is_active := true` and `latest_td_id := td`, one merge event
(action string `"merge_branches"`) is appended, and no other branch of the
case is modified. -/
theorem merge_empty_sources (ls : LS) (dp_id mb td : String)
    (h : (assocGet ls.cases dp_id).isSome) :
    (merge_branches ls dp_id [] mb td).2 = none ∧
    branchState (merge_branches ls dp_id [] mb td).1 dp_id mb =
      some ⟨td, true, 0, 0, false, true⟩ ∧
    (∀ b, b ≠ mb → branchState (merge_branches ls dp_id [] mb td).1 dp_id b =
      branchState ls dp_id b) ∧
    caseEvents (merge_branches ls dp_id [] mb td).1 dp_id =
      (caseEvents ls dp_id).map (fun evs => evs ++ [⟨mb, td, "merge_branches"⟩]) := by
  match hc : assocGet ls.cases dp_id with
  | none => rw [hc] at h; simp at h
  | some c =>
    have heq : merge_branches ls dp_id [] mb td =
        (⟨assocSet ls.cases dp_id
          { c with state_by_branch :=
                     assocSet c.state_by_branch mb
                       { State.init td with is_submitted := true }
                   events := c.events ++ [⟨mb, td, "merge_branches"⟩] }⟩, none) := by
      simp [merge_branches, hc, mergeLoop]
    refine ⟨by rw [heq], ?_, ?_, ?_⟩
    · rw [heq]
      simp [branchState, assocGet_assocSet_self, State.init]
    · intro b hb
      rw [heq]
      simp [branchState, hc, assocGet_assocSet_self, assocGet_assocSet_ne _ _ _ _ hb]
    · rw [heq]
      simp [caseEvents, hc, assocGet_assocSet_self]

/-- Witness for C10 on the fixture case, checking an unrelated branch name
is untouched. -/
theorem merge_empty_sources_witness :
    (merge_branches lsCaseOnly "c" [] "m" "t1").2 = none ∧
    branchState (merge_branches lsCaseOnly "c" [] "m" "t1").1 "c" "m" =
      some ⟨"t1", true, 0, 0, false, true⟩ ∧
    branchState (merge_branches lsCaseOnly "c" [] "m" "t1").1 "c" "other" =
      branchState lsCaseOnly "c" "other" ∧
    caseEvents (merge_branches lsCaseOnly "c" [] "m" "t1").1 "c" =
      (caseEvents lsCaseOnly "c").map (fun evs => evs ++ [⟨"m", "t1", "merge_branches"⟩]) := by
  obtain ⟨h1, h2, h3, h4⟩ := merge_empty_sources lsCaseOnly "c" "m" "t1" (by decide)
  exact ⟨h1, h2, h3 "other" (by decide), h4⟩

/-- C3 counterexample: the event appended by a successful `merge_branches`
has action string `"merge_branches"` (the method name, labelset.py line
134), not `"merge"` as the claim states — shown on a concrete successful
merge whose only event is that one. -/
theorem merge_event_action_not_merge :
    (merge_branches lsCaseOnly "c" [] "m" "t1").2 = none ∧
    caseEvents (merge_branches lsCaseOnly "c" [] "m" "t1").1 "c" =
      some [⟨"m", "t1", "merge_branches"⟩] ∧
    ("merge_branches" : String) ≠ "merge" := by decide

/-- C3 (amended): every successful mutating call appends exactly one Event
to the target case's event log, with action `"annotate"`, `"sign_off"`,
`"review_passed"`, `"review_failed"` or — for `merge_branches` — the string
`"merge_branches"`, whose actor is the merged branch name. -/
theorem mutating_calls_append_one_event :
    (∀ ls dp_id user td, (annotate_case ls dp_id user td).2 = none →
      caseEvents (annotate_case ls dp_id user td).1 dp_id =
        (caseEvents ls dp_id).map (fun evs => evs ++ [⟨user, td, "annotate"⟩])) ∧
    (∀ ls dp_id user td, (sign_off_on_case ls dp_id user td).2 = none →
      caseEvents (sign_off_on_case ls dp_id user td).1 dp_id =
        (caseEvents ls dp_id).map (fun evs => evs ++ [⟨user, td, "sign_off"⟩])) ∧
    (∀ ls dp_id user td, (review_passed ls dp_id user td).2 = none →
      caseEvents (review_passed ls dp_id user td).1 dp_id =
        (caseEvents ls dp_id).map (fun evs => evs ++ [⟨user, td, "review_passed"⟩])) ∧
    (∀ ls dp_id user td, (review_failed ls dp_id user td).2 = none →
      caseEvents (review_failed ls dp_id user td).1 dp_id =
        (caseEvents ls dp_id).map (fun evs => evs ++ [⟨user, td, "review_failed"⟩])) ∧
    (∀ ls dp_id users mb td, (merge_branches ls dp_id users mb td).2 = none →
      caseEvents (merge_branches ls dp_id users mb td).1 dp_id =
        (caseEvents ls dp_id).map (fun evs => evs ++ [⟨mb, td, "merge_branches"⟩])) := by
  refine ⟨?_, ?_, ?_, ?_, ?_⟩
  · intro ls dp_id user td h
    obtain ⟨c, hc, h1⟩ := annotate_success_shape ls dp_id user td h
    rw [h1]
    simp [caseEvents, hc, assocGet_assocSet_self]
  · intro ls dp_id user td h
    obtain ⟨c, st, hc, hb, h1⟩ := sign_off_success_shape ls dp_id user td h
    rw [h1]
    simp [caseEvents, hc, assocGet_assocSet_self]
  · intro ls dp_id user td h
    obtain ⟨c, st, hc, hb, hs, h1⟩ := review_passed_success_shape ls dp_id user td h
    rw [h1]
    simp [caseEvents, hc, assocGet_assocSet_self]
  · intro ls dp_id user td h
    obtain ⟨c, st, hc, hb, hs, h1⟩ := review_failed_success_shape ls dp_id user td h
    rw [h1]
    simp [caseEvents, hc, assocGet_assocSet_self]
  · intro ls dp_id users mb td h
    obtain ⟨c, d, hc, hd, h1⟩ := merge_success_shape ls dp_id users mb td h
    rw [h1]
    simp [caseEvents, hc, assocGet_assocSet_self]

/-- Witness for the amended C3: one concrete successful call of each of the
five mutating operations. -/
theorem mutating_calls_append_one_event_witness :
    caseEvents (annotate_case lsCaseOnly "c" "u" "t0").1 "c" =
      (caseEvents lsCaseOnly "c").map (fun evs => evs ++ [⟨"u", "t0", "annotate"⟩]) ∧
    caseEvents (sign_off_on_case lsAnnotated "c" "u" "t0").1 "c" =
      (caseEvents lsAnnotated "c").map (fun evs => evs ++ [⟨"u", "t0", "sign_off"⟩]) ∧
    caseEvents (review_passed lsSubmitted "c" "u" "t1").1 "c" =
      (caseEvents lsSubmitted "c").map
        (fun evs => evs ++ [⟨"u", "t1", "review_passed"⟩]) ∧
    caseEvents (review_failed lsSubmitted "c" "u" "t1").1 "c" =
      (caseEvents lsSubmitted "c").map
        (fun evs => evs ++ [⟨"u", "t1", "review_failed"⟩]) ∧
    caseEvents (merge_branches lsSubmitted "c" ["u"] "m" "t9").1 "c" =
      (caseEvents lsSubmitted "c").map
        (fun evs => evs ++ [⟨"m", "t9", "merge_branches"⟩]) :=
  ⟨mutating_calls_append_one_event.1 lsCaseOnly "c" "u" "t0" (by decide),
   mutating_calls_append_one_event.2.1 lsAnnotated "c" "u" "t0" (by decide),
   mutating_calls_append_one_event.2.2.1 lsSubmitted "c" "u" "t1" (by decide),
   mutating_calls_append_one_event.2.2.2.1 lsSubmitted "c" "u" "t1" (by decide),
   mutating_calls_append_one_event.2.2.2.2 lsSubmitted "c" ["u"] "m" "t9" (by decide)⟩

/-- C4 counterexample: when the merged branch name is itself a source (here
`merge_branches(c, [M], M, r2)` with branch `M` existing and unsubmitted),
the call succeeds but leaves `M` with `is_active = false` and
`is_submitted = true`, while the claim predicts `is_active = true` and
`is_submitted` equal to the AND of the call-time source flags, i.e. false. -/
theorem merge_source_equals_merged_cex :
    branchState (annotate_case lsCaseOnly "c" "M" "r1").1 "c" "M" =
      some ⟨"r1", false, 0, 0, false, true⟩ ∧
    (merge_branches (annotate_case lsCaseOnly "c" "M" "r1").1 "c" ["M"] "M" "r2").2
      = none ∧
    branchState
        (merge_branches (annotate_case lsCaseOnly "c" "M" "r1").1 "c" ["M"] "M" "r2").1
        "c" "M" =
      some ⟨"r2", true, 0, 0, false, false⟩ := by decide

/-- C4 (amended): for every existing case and non-empty list of source
branches that all have a State, provided the merged branch name is not
itself among the sources, `merge_branches` succeeds, deactivates every
source (changing nothing else in it), and creates the merged branch with
`latest_td_id = td`, `is_active = true`, zero counters, and `is_submitted`
equal to the AND of the sources' call-time `is_submitted` flags (expressed
as `List.all`, hence independent of scan order). -/
theorem merge_branches_spec (ls : LS) (dp_id : String) (users : List String)
    (mb td : String)
    (hcase : (assocGet ls.cases dp_id).isSome)
    (_hne : users ≠ []) (hmb : mb ∉ users)
    (hall : ∀ u ∈ users, (branchState ls dp_id u).isSome) :
    (merge_branches ls dp_id users mb td).2 = none ∧
    branchState (merge_branches ls dp_id users mb td).1 dp_id mb =
      some ⟨td, users.all (fun u => branchSubmitted ls dp_id u), 0, 0, false, true⟩ ∧
    (∀ u ∈ users, branchState (merge_branches ls dp_id users mb td).1 dp_id u =
      (branchState ls dp_id u).map fun st => { st with is_active := false }) := by
  match hc : assocGet ls.cases dp_id with
  | none => rw [hc] at hcase; simp at hcase
  | some c =>
    have hbs : ∀ u, branchState ls dp_id u = assocGet c.state_by_branch u := by
      intro u
      rw [branchState, hc, Option.some_bind]
    have hd0mb : assocGet
        (assocSet c.state_by_branch mb { State.init td with is_submitted := true }) mb =
        some { State.init td with is_submitted := true } := assocGet_assocSet_self ..
    have hd0get : ∀ u, u ≠ mb → assocGet
        (assocSet c.state_by_branch mb { State.init td with is_submitted := true }) u =
        assocGet c.state_by_branch u :=
      fun u hu => assocGet_assocSet_ne _ _ _ _ hu
    have humb : ∀ u ∈ users, u ≠ mb := fun u hu h => hmb (h ▸ hu)
    have hall0 : ∀ u ∈ users, (assocGet
        (assocSet c.state_by_branch mb { State.init td with is_submitted := true })
        u).isSome := by
      intro u hu
      rw [hd0get u (humb u hu)]
      have := hall u hu
      rwa [hbs u] at this
    obtain ⟨l1, l2, l3, _⟩ := mergeLoop_spec mb users
      (assocSet c.state_by_branch mb { State.init td with is_submitted := true })
      { State.init td with is_submitted := true } hmb hd0mb hall0
    match hml : mergeLoop mb users
        (assocSet c.state_by_branch mb { State.init td with is_submitted := true }) with
    | (d, e) =>
      rw [hml] at l1 l2 l3
      simp only at l1 l2 l3
      subst l1
      have heq : merge_branches ls dp_id users mb td =
          (⟨assocSet ls.cases dp_id
            { c with state_by_branch := d
                     events := c.events ++ [⟨mb, td, "merge_branches"⟩] }⟩, none) := by
        simp [merge_branches, hc, hml]
      have hstep1 : users.all (submittedAt
            (assocSet c.state_by_branch mb { State.init td with is_submitted := true })) =
          users.all (submittedAt c.state_by_branch) :=
        list_all_congr users _ _
          (fun u hu => by simp only [submittedAt, hd0get u (humb u hu)])
      have hstep2 : users.all (submittedAt c.state_by_branch) =
          users.all (fun u => branchSubmitted ls dp_id u) :=
        list_all_congr users _ _
          (fun u hu => by simp only [submittedAt, branchSubmitted, hbs u])
      refine ⟨by rw [heq], ?_, ?_⟩
      · rw [heq]
        simp only [branchState, assocGet_assocSet_self, Option.some_bind]
        rw [l2, hstep1, hstep2]
        simp [State.init]
      · intro u hu
        rw [heq, hbs u]
        simp only [branchState, assocGet_assocSet_self, Option.some_bind]
        rw [l3 u hu, hd0get u (humb u hu)]

/-- Witness for the amended C4: merging a submitted branch `u` and an
unsubmitted branch `v`; the AND over the sources is false. -/
theorem merge_branches_spec_witness :
    (merge_branches lsTwoBranches "c" ["u", "v"] "m" "tM").2 = none ∧
    branchState (merge_branches lsTwoBranches "c" ["u", "v"] "m" "tM").1 "c" "m" =
      some ⟨"tM", ["u", "v"].all (fun u => branchSubmitted lsTwoBranches "c" u),
            0, 0, false, true⟩ ∧
    branchState (merge_branches lsTwoBranches "c" ["u", "v"] "m" "tM").1 "c" "v" =
      (branchState lsTwoBranches "c" "v").map
        (fun st => { st with is_active := false }) := by
  obtain ⟨h1, h2, h3⟩ := merge_branches_spec lsTwoBranches "c" ["u", "v"] "m" "tM"
    (by decide) (by decide) (by decide) (by decide)
  exact ⟨h1, h2, h3 "v" (by decide)⟩

/-- C7: after a successful annotate and one sign-off, any interleaving of
reviews succeeds, `approved_reviews` counts the passes, `rejected_reviews`
counts the fails, `needs_updates` is exactly "some fail happened", the
branch stays submitted and active; moreover on any submitted branch a single
`review_passed` adds exactly one approval and changes nothing else, and a
single `review_failed` adds exactly one rejection and sets `needs_updates`,
changing nothing else — so the two counters accumulate independently and
without bound. -/
theorem reviews_accumulate (ls : LS) (dp_id user td : String) (s : List Bool)
    (h : (annotate_case ls dp_id user td).2 = none) :
    (sign_off_on_case (annotate_case ls dp_id user td).1 dp_id user td).2 = none ∧
    (reviewAll (sign_off_on_case (annotate_case ls dp_id user td).1 dp_id user td).1
        dp_id user td s).2 = none ∧
    branchState (reviewAll
        (sign_off_on_case (annotate_case ls dp_id user td).1 dp_id user td).1
        dp_id user td s).1 dp_id user =
      some ⟨td, true, s.count true, s.count false, !(s.count false == 0), true⟩ ∧
    (∀ ls' st, branchState ls' dp_id user = some st → st.is_submitted = true →
      (review_passed ls' dp_id user td).2 = none ∧
      branchState (review_passed ls' dp_id user td).1 dp_id user =
        some { st with approved_reviews := st.approved_reviews + 1 } ∧
      (review_failed ls' dp_id user td).2 = none ∧
      branchState (review_failed ls' dp_id user td).1 dp_id user =
        some { st with rejected_reviews := st.rejected_reviews + 1
                       needs_updates := true }) := by
  obtain ⟨c, hc, h1⟩ := annotate_success_shape ls dp_id user td h
  have hc1 : assocGet (annotate_case ls dp_id user td).1.cases dp_id =
      some { c with state_by_branch := assocSet c.state_by_branch user (State.init td)
                    events := c.events ++ [⟨user, td, "annotate"⟩] } := by
    rw [h1]
    exact assocGet_assocSet_self ..
  have heq2 : sign_off_on_case (annotate_case ls dp_id user td).1 dp_id user td =
      (⟨assocSet (annotate_case ls dp_id user td).1.cases dp_id
        { c with state_by_branch :=
                   assocSet (assocSet c.state_by_branch user (State.init td)) user
                     ⟨td, true, 0, 0, false, true⟩
                 events := (c.events ++ [⟨user, td, "annotate"⟩])
                             ++ [⟨user, td, "sign_off"⟩] }⟩, none) := by
    simp [sign_off_on_case, hc1, assocGet_assocSet_self, State.init]
  obtain ⟨r1, r2⟩ := reviewAll_spec dp_id user td s
    (sign_off_on_case (annotate_case ls dp_id user td).1 dp_id user td).1
    { c with state_by_branch :=
               assocSet (assocSet c.state_by_branch user (State.init td)) user
                 ⟨td, true, 0, 0, false, true⟩
             events := (c.events ++ [⟨user, td, "annotate"⟩])
                         ++ [⟨user, td, "sign_off"⟩] }
    td 0 0 false true (by rw [heq2]; exact assocGet_assocSet_self ..)
    (assocGet_assocSet_self ..)
  refine ⟨by rw [heq2], r1, by rw [r2]; simp, ?_⟩
  intro ls' st hb' hs'
  rw [branchState] at hb'
  match hc' : assocGet ls'.cases dp_id with
  | none => rw [hc'] at hb'; simp at hb'
  | some c' =>
    rw [hc'] at hb'
    simp only [Option.some_bind] at hb'
    have hp : review_passed ls' dp_id user td =
        (⟨assocSet ls'.cases dp_id
          { c' with state_by_branch :=
                      assocSet c'.state_by_branch user
                        { st with approved_reviews := st.approved_reviews + 1 }
                    events := c'.events ++ [⟨user, td, "review_passed"⟩] }⟩, none) := by
      simp [review_passed, hc', hb', hs']
    have hf : review_failed ls' dp_id user td =
        (⟨assocSet ls'.cases dp_id
          { c' with state_by_branch :=
                      assocSet c'.state_by_branch user
                        { st with rejected_reviews := st.rejected_reviews + 1
                                  needs_updates := true }
                    events := c'.events ++ [⟨user, td, "review_failed"⟩] }⟩, none) := by
      simp [review_failed, hc', hb', hs']
    refine ⟨by rw [hp], ?_, by rw [hf], ?_⟩
    · rw [hp]
      simp [branchState, assocGet_assocSet_self]
    · rw [hf]
      simp [branchState, assocGet_assocSet_self]

/-- Witness for C7: two passes and one fail in mixed order, starting from
the one-case fixture. -/
theorem reviews_accumulate_witness :
    (reviewAll (sign_off_on_case (annotate_case lsCaseOnly "c" "u" "t0").1 "c" "u"
        "t0").1 "c" "u" "t0" [true, false, true]).2 = none ∧
    branchState (reviewAll
        (sign_off_on_case (annotate_case lsCaseOnly "c" "u" "t0").1 "c" "u" "t0").1
        "c" "u" "t0" [true, false, true]).1 "c" "u" =
      some ⟨"t0", true, 2, 1, true, true⟩ := by
  obtain ⟨_, h2, h3, _⟩ :=
    reviews_accumulate lsCaseOnly "c" "u" "t0" [true, false, true] (by decide)
  exact ⟨h2, h3⟩

/-- C1: the code distinguishes a missing case from a missing branch.  A
missing case id raises the `does not exist` `ValueError` (`Err.notFound`),
but `sign_off_on_case` and `merge_branches` on an existing case whose
`state_by_branch` lacks the named branch hit a bare dictionary access and
raise `KeyError` (`Err.keyError`) — a different error kind, contradicting
the claim that both failures surface as the same distinguishable NotFound.
Shown on the one-case fixture with no branches. -/
theorem missing_branch_raises_keyError :
    (sign_off_on_case lsCaseOnly "c" "u" "t0").2 = some Err.keyError ∧
    (sign_off_on_case lsCaseOnly "missing" "u" "t0").2 = some Err.notFound ∧
    (merge_branches lsCaseOnly "c" ["u"] "m" "t1").2 = some Err.keyError ∧
    (merge_branches lsCaseOnly "missing" ["u"] "m" "t1").2 = some Err.notFound ∧
    Err.keyError ≠ Err.notFound := by decide

/-- C2: `merge_branches` is not atomic on error.  Merging `["u", "v"]` on a
case where only `"u"` exists fails with the `KeyError`, but by then the
merged branch `"m"` has already been created (and, `"u"` being unsubmitted,
flipped to unsubmitted) and `"u"` has been deactivated, so the labelset
differs from its pre-call value (no event is appended).  This contradicts the claim that every failing call leaves the
registry, every event log and every branch State exactly as before. -/
theorem merge_failure_leaves_partial_mutation :
    (merge_branches lsAnnotated "c" ["u", "v"] "m" "t1").2 = some Err.keyError ∧
    (merge_branches lsAnnotated "c" ["u", "v"] "m" "t1").1 ≠ lsAnnotated ∧
    branchState lsAnnotated "c" "m" = none ∧
    branchState (merge_branches lsAnnotated "c" ["u", "v"] "m" "t1").1 "c" "m" =
      some ⟨"t1", false, 0, 0, false, true⟩ ∧
    branchState lsAnnotated "c" "u" = some ⟨"t0", false, 0, 0, false, true⟩ ∧
    branchState (merge_branches lsAnnotated "c" ["u", "v"] "m" "t1").1 "c" "u" =
      some ⟨"t0", false, 0, 0, false, false⟩ ∧
    caseEvents (merge_branches lsAnnotated "c" ["u", "v"] "m" "t1").1 "c" =
      caseEvents lsAnnotated "c" := by decide

end Labelset
